import Mathlib

/-!
Shallow embedding of the capacity & allocation engine of the Assignly
repository (a React/TypeScript resource-management app).  Dates are
modelled as integer millisecond instants (JavaScript Date.getTime values);
numbers are modelled as rationals, with a small JSNum type covering the
NaN / Infinity results that JavaScript division by zero can produce.
Optional record fields are modelled with Option.
-/

namespace Assignly

/-- An assignment record (src/pages/Analytics.tsx, Dashboard.tsx,
Timeline.tsx).  engineerId / projectId are normalized to bare ids;
allocationPercentage is optional because the code guards it with
a fallback to 0. -/
structure Assignment where
  id : Nat
  engineerId : Nat
  projectId : Nat
  allocationPercentage : Option ℚ
  startDate : ℤ
  endDate : ℤ
deriving DecidableEq

/-- An engineer as delivered by the API, before capacity enrichment
(src/pages/Analytics.tsx).  skills and maxCapacity may be absent. -/
structure RawEngineer where
  id : Nat
  skills : Option (List String)
  maxCapacity : Option ℚ
deriving DecidableEq

/-- A project (src/pages/Analytics.tsx).  requiredSkills may be absent,
matching the optional chaining in the code. -/
structure Project where
  id : Nat
  status : String
  requiredSkills : Option (List String)
deriving DecidableEq

/-- An engineer enriched with capacity fields, as built by the
engineersWithCapacity map in src/pages/Analytics.tsx lines 125-154. -/
structure EngineerWithCapacity where
  id : Nat
  skills : List String
  maxCapacity : ℚ
  currentCapacity : ℚ
  availableCapacity : ℚ
deriving DecidableEq

/-- The assignment shape used by src/pages/EngineerDashboard.tsx, where
allocationPercentage is a required field. -/
structure EDAssignment where
  allocationPercentage : ℚ
  startDate : ℤ
  endDate : ℤ
deriving DecidableEq

/-- A JavaScript number restricted to the values arising in this code:
an ordinary (finite) number, positive or negative Infinity, or NaN. -/
inductive JSNum where
  | num : ℚ → JSNum
  | posInf : JSNum
  | negInf : JSNum
  | nan : JSNum
deriving DecidableEq

/-- JavaScript division of two finite numbers: a nonzero value divided by
zero gives a signed Infinity, 0 / 0 gives NaN. -/
def jsDivInt (a b : ℤ) : JSNum :=
  if b = 0 then
    if 0 < a then JSNum.posInf else if a < 0 then JSNum.negInf else JSNum.nan
  else JSNum.num ((a : ℚ) / (b : ℚ))

/-- Multiplication of a JavaScript number by a positive finite constant
(only used with the constant 100, so infinities keep their sign). -/
def jsMulPos (x : JSNum) (c : ℚ) : JSNum :=
  match x with
  | JSNum.num q => JSNum.num (q * c)
  | JSNum.posInf => JSNum.posInf
  | JSNum.negInf => JSNum.negInf
  | JSNum.nan => JSNum.nan

/-- Math.max of a JavaScript number and a finite constant: NaN propagates,
negative Infinity is absorbed by the constant. -/
def jsMax (x : JSNum) (c : ℚ) : JSNum :=
  match x with
  | JSNum.num q => JSNum.num (max q c)
  | JSNum.posInf => JSNum.posInf
  | JSNum.negInf => JSNum.num c
  | JSNum.nan => JSNum.nan

/-- Math.min of a JavaScript number and a finite constant: NaN propagates,
positive Infinity is absorbed by the constant. -/
def jsMin (x : JSNum) (c : ℚ) : JSNum :=
  match x with
  | JSNum.num q => JSNum.num (min q c)
  | JSNum.posInf => JSNum.num c
  | JSNum.negInf => JSNum.negInf
  | JSNum.nan => JSNum.nan

/-- The JavaScript expression x || d on numbers: 0 is falsy, so it is
replaced by the default d (used for maxCapacity fallbacks). -/
def jsOr (x d : ℚ) : ℚ := if x = 0 then d else x

/-- Capacity enrichment of one engineer, from the engineersWithCapacity
map in src/pages/Analytics.tsx lines 125-154: filter the assignments of
this engineer whose endDate is on or after now, sum their allocation
percentages (absent percentages count 0), default maxCapacity to 100
when absent, and clamp availableCapacity at 0 from below. -/
def withCapacity (assigns : List Assignment) (now : ℤ) (e : RawEngineer) :
    EngineerWithCapacity :=
  let engineerAssignments :=
    assigns.filter (fun a => a.engineerId == e.id && decide (now ≤ a.endDate))
  let currentCapacity :=
    engineerAssignments.foldl (fun sum a => sum + a.allocationPercentage.getD 0) 0
  let maxCapacity := e.maxCapacity.getD 100
  { id := e.id
    skills := e.skills.getD []
    maxCapacity := maxCapacity
    currentCapacity := currentCapacity
    availableCapacity := max 0 (maxCapacity - currentCapacity) }

/-- The full engineersWithCapacity list of src/pages/Analytics.tsx. -/
def engineersWithCapacity (engs : List RawEngineer) (assigns : List Assignment)
    (now : ℤ) : List EngineerWithCapacity :=
  engs.map (withCapacity assigns now)

/-- Average utilization (src/pages/Analytics.tsx lines 190-194): mean of
currentCapacity, guarded to 0 on an empty engineer list. -/
def averageUtilization (engineers : List EngineerWithCapacity) : ℚ :=
  if 0 < engineers.length then
    (engineers.foldl (fun sum e => sum + e.currentCapacity) 0) / engineers.length
  else 0

/-- Overloaded engineer count (src/pages/Analytics.tsx lines 196-198 and
src/pages/Dashboard.tsx lines 283-289): currentCapacity strictly above
(maxCapacity or-else 100) times 0.9. -/
def overloadedEngineers (engineers : List EngineerWithCapacity) : Nat :=
  (engineers.filter
    (fun e => decide (jsOr e.maxCapacity 100 * (9 / 10 : ℚ) < e.currentCapacity))).length

/-- Underutilized (a.k.a. available) engineer count (src/pages/Analytics.tsx
lines 199-201 and src/pages/Dashboard.tsx lines 296-305): availableCapacity
strictly above 20. -/
def underutilizedEngineers (engineers : List EngineerWithCapacity) : Nat :=
  (engineers.filter (fun e => decide ((20 : ℚ) < e.availableCapacity))).length

/-- Adding one string to a JavaScript Set modelled as a duplicate-free
list in insertion order. -/
def insertUnique (l : List String) (s : String) : List String :=
  if l.contains s then l else l ++ [s]

/-- The Set of all skills required by any project (skillGapAnalysis in
src/pages/Analytics.tsx lines 218-223), in insertion order. -/
def requiredSkillsList (projects : List Project) : List String :=
  projects.foldl (fun acc p => (p.requiredSkills.getD []).foldl insertUnique acc) []

/-- The Set of all skills available in the team (skillGapAnalysis in
src/pages/Analytics.tsx lines 225-229), in insertion order. -/
def availableSkillsList (engineers : List EngineerWithCapacity) : List String :=
  engineers.foldl (fun acc e => e.skills.foldl insertUnique acc) []

/-- The coverage field of skillGapAnalysis (src/pages/Analytics.tsx line
255): availableSkills.size divided by requiredSkills.size, times 100, with
no guard against a zero denominator, so JavaScript division semantics
apply (Infinity or NaN when requiredSkills is empty). -/
def skillGapCoverage (engineers : List EngineerWithCapacity)
    (projects : List Project) : JSNum :=
  jsMulPos
    (jsDivInt (availableSkillsList engineers).length (requiredSkillsList projects).length)
    100

/-- The missingSkills field of skillGapAnalysis (src/pages/Analytics.tsx
lines 232-234): required skills not available in the team. -/
def missingSkills (engineers : List EngineerWithCapacity)
    (projects : List Project) : List String :=
  (requiredSkillsList projects).filter
    (fun s => !(availableSkillsList engineers).contains s)

/-- One step of the skillDemand reduce (src/pages/Analytics.tsx lines
203-211): a JavaScript object modelled as an association list in key
insertion order; an existing key is incremented in place, a new key is
appended with count 1. -/
def bump (acc : List (String × Nat)) (skill : String) : List (String × Nat) :=
  if acc.any (fun p => p.1 == skill) then
    acc.map (fun p => if p.1 == skill then (p.1, p.2 + 1) else p)
  else acc ++ [(skill, 1)]

/-- The skillDemand object (src/pages/Analytics.tsx lines 203-211):
for each skill occurrence in any project's requiredSkills, increment
its counter. -/
def skillDemand (projects : List Project) : List (String × Nat) :=
  projects.foldl (fun acc p => (p.requiredSkills.getD []).foldl bump acc) []

/-- Looking a skill up in the demand object: the stored counter, or 0
when the key is absent. -/
def lookupCount (l : List (String × Nat)) (s : String) : Nat :=
  match l.find? (fun p => p.1 == s) with
  | some p => p.2
  | none => 0

/-- Stable insertion into a list that is sorted ascending on the key k:
the new element goes after every element whose key is less than or equal
to its own, modelling the stability of JavaScript Array.prototype.sort. -/
def insertByKey {α : Type} (k : α → ℤ) (x : α) : List α → List α
  | [] => [x]
  | y :: ys => if k y ≤ k x then y :: insertByKey k x ys else x :: y :: ys

/-- Stable sort ascending on the key k (the model of the stable
JavaScript Array.prototype.sort with a numeric comparator). -/
def sortByKey {α : Type} (k : α → ℤ) (l : List α) : List α :=
  l.foldl (fun acc x => insertByKey k x acc) []

/-- The ranking of skills by demand (src/pages/Analytics.tsx lines
213-215 before the slice): entries of skillDemand sorted by the
comparator (a, b) => b.count - a.count, i.e. ascending on the negated
count, with the sort stable. -/
def rankedSkills (projects : List Project) : List (String × Nat) :=
  sortByKey (fun p => -(p.2 : ℤ)) (skillDemand projects)

/-- The topSkills list (src/pages/Analytics.tsx lines 213-215): the
ranking truncated to its first five entries. -/
def topSkills (projects : List Project) : List (String × Nat) :=
  (rankedSkills projects).take 5

/-- The getDuration helper of the Projects page (src/unnamed/part_003
lines 133-140): ceiling of the span in whole days, with no clamping of
negative spans. -/
def getDuration (startDate endDate : ℤ) : ℤ :=
  ⌈((endDate - startDate : ℤ) : ℚ) / 86400000⌉

/-- The getProgress helper of the Projects page (src/unnamed/part_003
lines 142-149): (now - start) / (end - start) * 100, pushed through
Math.max with 0 and Math.min with 100, under JavaScript number
semantics (division by a zero span produces Infinity or NaN). -/
def getProgress (startDate endDate now : ℤ) : JSNum :=
  jsMin (jsMax (jsMulPos (jsDivInt (now - startDate) (endDate - startDate)) 100) 0) 100

/-- The project/engineer filter of the Timeline page (src/pages/
Timeline.tsx lines 157-169); none stands for the "all" selection. -/
def passesFilters (selProject selEngineer : Option Nat) (a : Assignment) : Bool :=
  (match selProject with
   | none => true
   | some p => a.projectId == p) &&
  (match selEngineer with
   | none => true
   | some eId => a.engineerId == eId)

/-- The getAssignmentsForDate bucket of the Timeline page
(src/pages/Timeline.tsx lines 138-144): assignments passing the filters
whose date range contains the given day, both endpoints inclusive. -/
def getAssignmentsForDate (assigns : List Assignment)
    (selProject selEngineer : Option Nat) (date : ℤ) : List Assignment :=
  (assigns.filter (passesFilters selProject selEngineer)).filter
    (fun a => decide (a.startDate ≤ date) && decide (date ≤ a.endDate))

/-- The instant of a given day of January 2024 (UTC midnight in epoch
milliseconds), used for the calendar example. -/
def jan2024 (d : Nat) : ℤ := 1704067200000 + ((d : ℤ) - 1) * 86400000

/-- A sample assignment running from 2024-01-10 to 2024-01-20. -/
def sampleA : Assignment :=
  { id := 1
    engineerId := 1
    projectId := 1
    allocationPercentage := some 50
    startDate := jan2024 10
    endDate := jan2024 20 }

/-- The Upcoming Assignments query of the Timeline page
(src/pages/Timeline.tsx lines 348-353): filtered assignments whose start
date is on or after now, stable-sorted ascending by start date, then
truncated to the given cap (10 in the view). -/
def upcomingAssignments (assigns : List Assignment)
    (selProject selEngineer : Option Nat) (now : ℤ) (limit : Nat) : List Assignment :=
  (sortByKey (fun a => a.startDate)
      ((assigns.filter (passesFilters selProject selEngineer)).filter
        (fun a => decide (now ≤ a.startDate)))).take limit

/-- The per-month utilization of getMonthlyData (src/pages/
EngineerDashboard.tsx lines 141-162): sum the allocation of the
assignments whose date range contains the first day of the month, and
cap the displayed value with Math.min at 100. -/
def monthUtilization (assigns : List EDAssignment) (month : ℤ) : ℚ :=
  min
    ((assigns.filter
        (fun a => decide (a.startDate ≤ month) && decide (month ≤ a.endDate))).foldl
      (fun sum a => sum + a.allocationPercentage) 0)
    100

/-- Modelled from the spec: the suitable-engineers computation lives in
the backend behind GET /projects/:id/suitable-engineers (src/unnamed/
part_000 lines 30-33 is only the API wrapper); per spec section 4.3 an
engineer is a candidate exactly when the intersection of the engineer's
skill set with the project's required-skills set is non-empty. -/
def findSuitableEngineers (p : Project) (engineers : List RawEngineer) :
    List RawEngineer :=
  engineers.filter
    (fun e => (p.requiredSkills.getD []).any (fun s => (e.skills.getD []).contains s))

end Assignly

namespace Assignly

/-- Helper: a left fold accumulating a sum equals the initial value plus
the sum of the mapped list. -/
theorem foldl_add_eq_sum {α : Type} (g : α → ℚ) :
    ∀ (l : List α) (c : ℚ), l.foldl (fun s a => s + g a) c = c + (l.map g).sum := by
  intro l
  induction l with
  | nil => intro c; simp
  | cons x xs ih =>
    intro c
    simp only [List.foldl_cons, List.map_cons, List.sum_cons]
    rw [ih]
    ring

/-- C1: currentCapacity is the sum of allocationPercentage (0 when
absent) over exactly the assignments whose engineerId matches the
engineer and whose end date is on or after now (no start-date
requirement), and availableCapacity is max 0 (maxCapacity minus
currentCapacity) with maxCapacity defaulting to 100 when absent. -/
theorem currentCapacity_sum (e : RawEngineer) (assigns : List Assignment) (now : ℤ) :
    (withCapacity assigns now e).currentCapacity =
      ((assigns.filter (fun a => decide (a.engineerId = e.id ∧ now ≤ a.endDate))).map
        (fun a => a.allocationPercentage.getD 0)).sum ∧
    (withCapacity assigns now e).availableCapacity =
      max 0 (e.maxCapacity.getD 100 - (withCapacity assigns now e).currentCapacity) := by
  constructor
  · show (assigns.filter (fun a => a.engineerId == e.id && decide (now ≤ a.endDate))).foldl
        (fun sum a => sum + a.allocationPercentage.getD 0) 0 = _
    rw [foldl_add_eq_sum, zero_add]
    have hfilter :
        assigns.filter (fun a => a.engineerId == e.id && decide (now ≤ a.endDate)) =
          assigns.filter (fun a => decide (a.engineerId = e.id ∧ now ≤ a.endDate)) := by
      apply List.filter_congr
      intro a _
      rw [Bool.decide_and, Bool.beq_eq_decide_eq]
    rw [hfilter]
  · rfl

/-- C2: the ratio computations are not all zero-safe.  averageUtilization
on an empty engineer list is indeed 0, but skillGapCoverage on an empty
required-skill set is NaN (when the team also has no skills) or positive
Infinity (when the team has skills), never the number 0 the claim
demands. -/
theorem skillGapCoverage_zero_denominator :
    averageUtilization [] = 0 ∧
    skillGapCoverage [] [] = JSNum.nan ∧
    skillGapCoverage
      [{ id := 1, skills := ["React"], maxCapacity := 100,
         currentCapacity := 0, availableCapacity := 100 }] [] = JSNum.posInf ∧
    JSNum.nan ≠ JSNum.num 0 ∧ JSNum.posInf ≠ JSNum.num 0 := by
  refine ⟨rfl, by decide, by decide, by decide, by decide⟩

/-- C3 counterexample: for start one day after end, getDuration returns
-1, not the clamped 0 the claim states. -/
theorem getDuration_negative :
    getDuration 86400000 0 = -1 ∧ ¬ (0 ≤ getDuration 86400000 0) := by
  have h : getDuration 86400000 0 = -1 := by
    show ⌈((0 - 86400000 : ℤ) : ℚ) / 86400000⌉ = -1
    rw [show ((0 - 86400000 : ℤ) : ℚ) / 86400000 = ((-1 : ℤ) : ℚ) by norm_num,
      Int.ceil_intCast]
  exact ⟨h, by rw [h]; decide⟩

/-- C3 amended: getDuration is the exact (signed) ceiling of the span in
whole days: the span is at most getDuration days and more than
getDuration - 1 days; it is nonnegative whenever start ≤ end, but when
end precedes start by at least one full day the result is negative — no
clamping to 0 takes place. -/
theorem getDuration_ceiling (s e : ℤ) :
    ((e : ℚ) - s ≤ (getDuration s e : ℚ) * 86400000) ∧
    (((getDuration s e : ℚ) - 1) * 86400000 < (e : ℚ) - s) ∧
    (s ≤ e → 0 ≤ getDuration s e) ∧
    (e ≤ s - 86400000 → getDuration s e < 0) := by
  have h86 : (0 : ℚ) < 86400000 := by norm_num
  have hgd : getDuration s e = ⌈((e - s : ℤ) : ℚ) / 86400000⌉ := rfl
  refine ⟨?_, ?_, ?_, ?_⟩
  · have h1 : ((e - s : ℤ) : ℚ) / 86400000 ≤ ((⌈((e - s : ℤ) : ℚ) / 86400000⌉ : ℤ) : ℚ) :=
      Int.le_ceil _
    rw [div_le_iff₀ h86] at h1
    rw [hgd]
    push_cast at h1 ⊢
    linarith
  · have h2 : ((⌈((e - s : ℤ) : ℚ) / 86400000⌉ : ℤ) : ℚ) < ((e - s : ℤ) : ℚ) / 86400000 + 1 :=
      Int.ceil_lt_add_one _
    have h3 : ((⌈((e - s : ℤ) : ℚ) / 86400000⌉ : ℤ) : ℚ) - 1 < ((e - s : ℤ) : ℚ) / 86400000 := by
      linarith
    rw [lt_div_iff₀ h86] at h3
    rw [hgd]
    push_cast at h3 ⊢
    linarith
  · intro hse
    have hse' : (s : ℚ) ≤ (e : ℚ) := by exact_mod_cast hse
    rw [hgd]
    apply Int.ceil_nonneg
    apply div_nonneg _ (le_of_lt h86)
    push_cast
    linarith
  · intro hlt
    have hlt' : (e : ℚ) ≤ (s : ℚ) - 86400000 := by exact_mod_cast hlt
    rw [hgd]
    have h4 : ((e - s : ℤ) : ℚ) / 86400000 ≤ ((-1 : ℤ) : ℚ) := by
      rw [div_le_iff₀ h86]
      push_cast
      linarith
    have h5 := Int.ceil_le.mpr h4
    omega

/-- C3 amended, witnessed at concrete inputs: a one-day span has
nonnegative duration, and an end two days before the start yields a
negative duration. -/
theorem getDuration_ceiling_witness :
    0 ≤ getDuration 0 86400000 ∧ getDuration 172800000 0 < 0 :=
  ⟨(getDuration_ceiling 0 86400000).2.2.1 (by norm_num),
   (getDuration_ceiling 172800000 0).2.2.2 (by norm_num)⟩

/-- C4 counterexample: with end = start and now = start the progress
computation returns NaN, not the 100 percent the claim states. -/
theorem getProgress_nan :
    getProgress 0 0 0 = JSNum.nan ∧ JSNum.nan ≠ JSNum.num 100 := by
  exact ⟨by decide, by decide⟩

/-- C4 amended: when end differs from start, getProgress is the elapsed
fraction times 100 clamped into the range 0 to 100; when end equals
start the result is 100 for now after start, 0 for now before start,
and NaN for now equal to start — there is no uniform 100-percent edge
case. -/
theorem getProgress_clamped (s e n : ℤ) :
    (e ≠ s → getProgress s e n =
      JSNum.num (min (max (((n : ℚ) - s) / ((e : ℚ) - s) * 100) 0) 100)) ∧
    (e = s → getProgress s e n =
      if s < n then JSNum.num 100 else if n < s then JSNum.num 0 else JSNum.nan) := by
  constructor
  · intro h
    have hne : (e - s : ℤ) ≠ 0 := sub_ne_zero.mpr h
    simp only [getProgress, jsDivInt, hne, if_false, jsMulPos, jsMax, jsMin]
    norm_cast
  · intro h
    rw [h]
    rcases lt_trichotomy s n with h1 | h1 | h1
    · have hpos : (0 : ℤ) < n - s := by omega
      rw [if_pos h1]
      simp [getProgress, jsDivInt, jsMulPos, jsMax, jsMin, sub_self, hpos]
    · subst h1
      rw [if_neg (lt_irrefl s), if_neg (lt_irrefl s)]
      simp [getProgress, jsDivInt, jsMulPos, jsMax, jsMin, sub_self]
    · have hneg : n - s < (0 : ℤ) := by omega
      have hnpos : ¬ (0 : ℤ) < n - s := by omega
      rw [if_neg (by omega : ¬ s < n), if_pos h1]
      simp [getProgress, jsDivInt, jsMulPos, jsMax, jsMin, sub_self, hnpos, hneg]

/-- C4 amended, witnessed at concrete inputs: halfway through a ten-day
span the progress is 50, and with end = start and now after start it is
100. -/
theorem getProgress_clamped_witness :
    getProgress 0 10 5 =
      JSNum.num (min (max (((5 : ℚ) - 0) / ((10 : ℚ) - 0) * 100) 0) 100) ∧
    getProgress 0 0 5 = JSNum.num 100 := by
  constructor
  · exact (getProgress_clamped 0 10 5).1 (by decide)
  · have h := (getProgress_clamped 0 0 5).2 rfl
    simpa using h

/-- C9: a project whose required-skills list is empty or absent yields an
empty candidate list, because candidacy needs a non-empty intersection
with the requirement. -/
theorem findSuitableEngineers_empty (p : Project) (engineers : List RawEngineer)
    (h : p.requiredSkills = none ∨ p.requiredSkills = some []) :
    findSuitableEngineers p engineers = [] := by
  rcases h with h | h <;> simp [findSuitableEngineers, h]

/-- C9, witnessed at a concrete input: even with an engineer in the pool,
a project with an empty required-skills list matches nobody. -/
theorem findSuitableEngineers_empty_witness :
    findSuitableEngineers { id := 7, status := "active", requiredSkills := some [] }
      [{ id := 1, skills := some ["React"], maxCapacity := some 100 }] = [] :=
  findSuitableEngineers_empty _ _ (Or.inr rfl)

/-- C10: the monthly utilization never exceeds 100 even when the raw
allocation sum does; it equals the minimum of 100 and the allocation sum
over the assignments whose date range contains the first day of the
month; and an assignment starting after that day contributes nothing. -/
theorem monthUtilization_spec :
    (∀ (assigns : List EDAssignment) (m : ℤ), monthUtilization assigns m ≤ 100) ∧
    (∀ (assigns : List EDAssignment) (m : ℤ),
      monthUtilization assigns m =
        min 100
          (((assigns.filter (fun a => decide (a.startDate ≤ m ∧ m ≤ a.endDate))).map
            (fun a => a.allocationPercentage)).sum)) ∧
    (∀ (a : EDAssignment) (assigns : List EDAssignment) (m : ℤ),
      m < a.startDate →
        monthUtilization (a :: assigns) m = monthUtilization assigns m) := by
  refine ⟨?_, ?_, ?_⟩
  · intro assigns m
    exact min_le_right _ _
  · intro assigns m
    unfold monthUtilization
    rw [foldl_add_eq_sum, zero_add, min_comm]
    have hfilter :
        assigns.filter (fun a => decide (a.startDate ≤ m) && decide (m ≤ a.endDate)) =
          assigns.filter (fun a => decide (a.startDate ≤ m ∧ m ≤ a.endDate)) := by
      apply List.filter_congr
      intro a _
      rw [Bool.decide_and]
    rw [hfilter]
  · intro a assigns m hm
    have hfalse : ¬ (a.startDate ≤ m) := not_le.mpr hm
    simp [monthUtilization, List.filter_cons, hfalse]

/-- C10, witnessed at a concrete input: an assignment starting on day 5
does not contribute to the month starting at day 0. -/
theorem monthUtilization_spec_witness :
    monthUtilization [{ allocationPercentage := 50, startDate := 5, endDate := 10 }] 0 =
      monthUtilization [] 0 :=
  monthUtilization_spec.2.2 _ [] 0 (by decide)

/-- Helper: stable insertion produces a permutation of consing. -/
theorem insertByKey_perm {α : Type} (k : α → ℤ) (x : α) :
    ∀ l : List α, (insertByKey k x l).Perm (x :: l) := by
  intro l
  induction l with
  | nil => simp [insertByKey]
  | cons y ys ih =>
    by_cases h : k y ≤ k x
    · simp only [insertByKey, if_pos h]
      exact (ih.cons y).trans (List.Perm.swap x y ys)
    · simp [insertByKey, if_neg h]

/-- Helper: stable insertion preserves sortedness on the key. -/
theorem insertByKey_pairwise {α : Type} (k : α → ℤ) (x : α) :
    ∀ l : List α, l.Pairwise (fun a b => k a ≤ k b) →
      (insertByKey k x l).Pairwise (fun a b => k a ≤ k b) := by
  intro l
  induction l with
  | nil => intro _; simp [insertByKey]
  | cons y ys ih =>
    intro hp
    rcases List.pairwise_cons.mp hp with ⟨hy, hys⟩
    by_cases h : k y ≤ k x
    · simp only [insertByKey, if_pos h]
      apply List.pairwise_cons.mpr
      refine ⟨?_, ih hys⟩
      intro b hb
      have hb2 : b ∈ x :: ys := (insertByKey_perm k x ys).mem_iff.mp hb
      rcases List.mem_cons.mp hb2 with rfl | hb3
      · exact h
      · exact hy b hb3
    · simp only [insertByKey, if_neg h]
      apply List.pairwise_cons.mpr
      refine ⟨?_, hp⟩
      intro b hb
      have hxy : k x ≤ k y := le_of_lt (lt_of_not_le h)
      rcases List.mem_cons.mp hb with rfl | hb2
      · exact hxy
      · exact le_trans hxy (hy b hb2)

/-- Helper: the insertion fold is a permutation of appending. -/
theorem foldl_insertByKey_perm {α : Type} (k : α → ℤ) :
    ∀ (l acc : List α),
      (l.foldl (fun acc x => insertByKey k x acc) acc).Perm (acc ++ l) := by
  intro l
  induction l with
  | nil => intro acc; simp
  | cons x xs ih =>
    intro acc
    simp only [List.foldl_cons]
    have h1 := ih (insertByKey k x acc)
    have h2 : (insertByKey k x acc ++ xs).Perm ((x :: acc) ++ xs) :=
      (insertByKey_perm k x acc).append_right xs
    have h3 : ((x :: acc) ++ xs).Perm (acc ++ x :: xs) := List.perm_middle.symm
    exact h1.trans (h2.trans h3)

/-- Helper: sortByKey permutes its input. -/
theorem sortByKey_perm {α : Type} (k : α → ℤ) (l : List α) :
    (sortByKey k l).Perm l := by
  simpa using foldl_insertByKey_perm k l []

/-- Helper: the insertion fold keeps the accumulator sorted. -/
theorem foldl_insertByKey_pairwise {α : Type} (k : α → ℤ) :
    ∀ (l acc : List α), acc.Pairwise (fun a b => k a ≤ k b) →
      (l.foldl (fun acc x => insertByKey k x acc) acc).Pairwise
        (fun a b => k a ≤ k b) := by
  intro l
  induction l with
  | nil => intro acc hacc; simpa using hacc
  | cons x xs ih =>
    intro acc hacc
    simp only [List.foldl_cons]
    exact ih _ (insertByKey_pairwise k x acc hacc)

/-- Helper: sortByKey sorts ascending on the key. -/
theorem sortByKey_pairwise {α : Type} (k : α → ℤ) (l : List α) :
    (sortByKey k l).Pairwise (fun a b => k a ≤ k b) :=
  foldl_insertByKey_pairwise k l [] List.Pairwise.nil

/-- Helper: inserting an element of a different key leaves the filter by
key value untouched. -/
theorem filter_insertByKey_ne {α : Type} (k : α → ℤ) (c : ℤ) (x : α)
    (hx : k x ≠ c) :
    ∀ l : List α, (insertByKey k x l).filter (fun a => decide (k a = c)) =
      l.filter (fun a => decide (k a = c)) := by
  intro l
  induction l with
  | nil => simp [insertByKey, hx]
  | cons y ys ih =>
    by_cases h : k y ≤ k x
    · simp only [insertByKey, if_pos h, List.filter_cons]
      by_cases hy : k y = c <;> simp [hy, ih]
    · simp [insertByKey, if_neg h, List.filter_cons, hx]

/-- Helper: inserting an element with the key value under scrutiny into a
sorted list appends it after the existing elements of that key value
(this is the stability of the insertion). -/
theorem filter_insertByKey_eq {α : Type} (k : α → ℤ) (c : ℤ) (x : α)
    (hx : k x = c) :
    ∀ l : List α, l.Pairwise (fun a b => k a ≤ k b) →
      (insertByKey k x l).filter (fun a => decide (k a = c)) =
        l.filter (fun a => decide (k a = c)) ++ [x] := by
  intro l
  induction l with
  | nil => simp [insertByKey, hx]
  | cons y ys ih =>
    intro hp
    rcases List.pairwise_cons.mp hp with ⟨hy, hys⟩
    by_cases h : k y ≤ k x
    · simp only [insertByKey, if_pos h, List.filter_cons]
      by_cases hyc : k y = c <;> simp [hyc, ih hys]
    · have hxy : k x < k y := lt_of_not_le h
      have hfil : (y :: ys).filter (fun a => decide (k a = c)) = [] := by
        rw [List.filter_eq_nil_iff]
        intro b hb
        rcases List.mem_cons.mp hb with rfl | hb2
        · simp only [decide_eq_true_eq]
          omega
        · have hyb := hy b hb2
          simp only [decide_eq_true_eq]
          omega
      have hins : insertByKey k x (y :: ys) = x :: y :: ys := by
        simp [insertByKey, if_neg h]
      rw [hins, List.filter_cons, hfil]
      simp [hx]

/-- Helper: the insertion fold preserves each key-value class of the
filter in order (stability of the whole sort). -/
theorem foldl_insertByKey_filter {α : Type} (k : α → ℤ) (c : ℤ) :
    ∀ (l acc : List α), acc.Pairwise (fun a b => k a ≤ k b) →
      (l.foldl (fun acc x => insertByKey k x acc) acc).filter
          (fun a => decide (k a = c)) =
        acc.filter (fun a => decide (k a = c)) ++
          l.filter (fun a => decide (k a = c)) := by
  intro l
  induction l with
  | nil => intro acc _; simp
  | cons x xs ih =>
    intro acc hacc
    simp only [List.foldl_cons]
    rw [ih _ (insertByKey_pairwise k x acc hacc)]
    by_cases hx : k x = c
    · rw [filter_insertByKey_eq k c x hx acc hacc]
      simp [List.filter_cons, hx]
    · rw [filter_insertByKey_ne k c x hx acc]
      simp [List.filter_cons, hx]

/-- Helper: sortByKey is stable: the elements of each key value keep
their original relative order. -/
theorem sortByKey_filter {α : Type} (k : α → ℤ) (c : ℤ) (l : List α) :
    (sortByKey k l).filter (fun a => decide (k a = c)) =
      l.filter (fun a => decide (k a = c)) :=
  by simpa using foldl_insertByKey_filter k c l [] List.Pairwise.nil

/-- C5: the calendar bucket of a day holds exactly the assignments that
pass the filters and whose date range contains that day, both endpoints
inclusive; the sample assignment from 2024-01-10 to 2024-01-20 appears
in the buckets of days 10 through 20 of January 2024 and is absent from
the buckets of day 9 and day 21. -/
theorem getAssignmentsForDate_spec :
    (∀ (assigns : List Assignment) (sp se : Option Nat) (a : Assignment) (d : ℤ),
        a ∈ getAssignmentsForDate assigns sp se d ↔
          a ∈ assigns ∧ passesFilters sp se a = true ∧
            a.startDate ≤ d ∧ d ≤ a.endDate) ∧
    (∀ d : Nat, 10 ≤ d → d ≤ 20 →
        sampleA ∈ getAssignmentsForDate [sampleA] none none (jan2024 d)) ∧
    sampleA ∉ getAssignmentsForDate [sampleA] none none (jan2024 9) ∧
    sampleA ∉ getAssignmentsForDate [sampleA] none none (jan2024 21) := by
  have hmem : ∀ (assigns : List Assignment) (sp se : Option Nat) (a : Assignment)
      (d : ℤ), a ∈ getAssignmentsForDate assigns sp se d ↔
        a ∈ assigns ∧ passesFilters sp se a = true ∧
          a.startDate ≤ d ∧ d ≤ a.endDate := by
    intro assigns sp se a d
    simp only [getAssignmentsForDate, List.mem_filter, Bool.and_eq_true,
      decide_eq_true_eq]
    tauto
  refine ⟨hmem, ?_, ?_, ?_⟩
  · intro d h10 h20
    rw [hmem]
    refine ⟨List.mem_singleton.mpr rfl, rfl, ?_, ?_⟩
    · show jan2024 10 ≤ jan2024 d
      unfold jan2024
      omega
    · show jan2024 d ≤ jan2024 20
      unfold jan2024
      omega
  · intro hmem9
    have h := ((hmem _ _ _ _ _).mp hmem9).2.2.1
    revert h
    show ¬ (jan2024 10 ≤ jan2024 9)
    unfold jan2024
    omega
  · intro hmem21
    have h := ((hmem _ _ _ _ _).mp hmem21).2.2.2
    revert h
    show ¬ (jan2024 21 ≤ jan2024 20)
    unfold jan2024
    omega

/-- C5, witnessed at a concrete input: day 15 of January 2024 holds the
sample assignment. -/
theorem getAssignmentsForDate_spec_witness :
    sampleA ∈ getAssignmentsForDate [sampleA] none none (jan2024 15) :=
  getAssignmentsForDate_spec.2.1 15 (by norm_num) (by norm_num)

/-- C8: every element of the upcoming query starts on or after now and
comes from the filtered assignment list; assignments starting before now
never appear; the result is sorted ascending by start date; its length
never exceeds the cap; and when at most cap assignments qualify, the
result is exactly (a permutation of) the qualifying assignments. -/
theorem upcomingAssignments_spec :
    (∀ (assigns : List Assignment) (sp se : Option Nat) (now : ℤ) (limit : Nat)
        (a : Assignment), a ∈ upcomingAssignments assigns sp se now limit →
          now ≤ a.startDate ∧ a ∈ assigns ∧ passesFilters sp se a = true) ∧
    (∀ (assigns : List Assignment) (sp se : Option Nat) (now : ℤ) (limit : Nat)
        (a : Assignment), a.startDate < now →
          a ∉ upcomingAssignments assigns sp se now limit) ∧
    (∀ (assigns : List Assignment) (sp se : Option Nat) (now : ℤ) (limit : Nat),
        (upcomingAssignments assigns sp se now limit).Pairwise
          (fun a b => a.startDate ≤ b.startDate)) ∧
    (∀ (assigns : List Assignment) (sp se : Option Nat) (now : ℤ) (limit : Nat),
        (upcomingAssignments assigns sp se now limit).length ≤ limit) ∧
    (∀ (assigns : List Assignment) (sp se : Option Nat) (now : ℤ) (limit : Nat),
        ((assigns.filter (passesFilters sp se)).filter
            (fun a => decide (now ≤ a.startDate))).length ≤ limit →
          (upcomingAssignments assigns sp se now limit).Perm
            ((assigns.filter (passesFilters sp se)).filter
              (fun a => decide (now ≤ a.startDate)))) := by
  have hmem : ∀ (assigns : List Assignment) (sp se : Option Nat) (now : ℤ)
      (limit : Nat) (a : Assignment),
      a ∈ upcomingAssignments assigns sp se now limit →
        now ≤ a.startDate ∧ a ∈ assigns ∧ passesFilters sp se a = true := by
    intro assigns sp se now limit a ha
    have h1 : a ∈ sortByKey (fun b : Assignment => b.startDate)
        ((assigns.filter (passesFilters sp se)).filter
          (fun b => decide (now ≤ b.startDate))) := List.mem_of_mem_take ha
    have h2 := (sortByKey_perm (fun b : Assignment => b.startDate) _).mem_iff.mp h1
    rcases List.mem_filter.mp h2 with ⟨h3, h4⟩
    rcases List.mem_filter.mp h3 with ⟨h5, h6⟩
    exact ⟨by simpa using h4, h5, h6⟩
  refine ⟨hmem, ?_, ?_, ?_, ?_⟩
  · intro assigns sp se now limit a hlt ha
    have := (hmem assigns sp se now limit a ha).1
    omega
  · intro assigns sp se now limit
    have hs := sortByKey_pairwise (fun b : Assignment => b.startDate)
      ((assigns.filter (passesFilters sp se)).filter
        (fun b => decide (now ≤ b.startDate)))
    exact hs.sublist (List.take_sublist _ _)
  · intro assigns sp se now limit
    unfold upcomingAssignments
    exact List.length_take_le limit _
  · intro assigns sp se now limit hlen
    have hsorted := sortByKey_perm (fun b : Assignment => b.startDate)
      ((assigns.filter (passesFilters sp se)).filter
        (fun b => decide (now ≤ b.startDate)))
    have hlen2 : (sortByKey (fun b : Assignment => b.startDate)
        ((assigns.filter (passesFilters sp se)).filter
          (fun b => decide (now ≤ b.startDate)))).length ≤ limit := by
      rw [hsorted.length_eq]
      exact hlen
    unfold upcomingAssignments
    rw [List.take_of_length_le hlen2]
    exact hsorted

/-- C8, witnessed at a concrete input: with three filtered assignments,
two of which start on or after now = 3, the query returns exactly those
two in ascending start order. -/
theorem upcomingAssignments_spec_witness :
    ({ id := 2, engineerId := 1, projectId := 1, allocationPercentage := some 10,
        startDate := 1, endDate := 9 } : Assignment) ∉
      upcomingAssignments
        [{ id := 1, engineerId := 1, projectId := 1, allocationPercentage := some 10,
           startDate := 5, endDate := 9 },
         { id := 2, engineerId := 1, projectId := 1, allocationPercentage := some 10,
           startDate := 1, endDate := 9 },
         { id := 3, engineerId := 1, projectId := 1, allocationPercentage := some 10,
           startDate := 10, endDate := 19 }] none none 3 10 :=
  upcomingAssignments_spec.2.1 _ none none 3 10 _ (by decide)

/-- Helper: the length of a filtered map equals the length of the
original list filtered through the composed predicate. -/
theorem length_filter_map {α β : Type} (f : α → β) (p : β → Bool) :
    ∀ l : List α,
      ((l.map f).filter p).length = (l.filter (fun a => p (f a))).length := by
  intro l
  induction l with
  | nil => rfl
  | cons x xs ih =>
    simp only [List.map_cons, List.filter_cons]
    by_cases h : p (f x) <;> simp [h, ih]

/-- C6: overloadedEngineers counts exactly the engineers whose
currentCapacity strictly exceeds 90 percent of their (default-100)
maxCapacity, and underutilizedEngineers counts exactly those whose
availableCapacity strictly exceeds 20; both thresholds are strict, so an
engineer sitting exactly at 90 percent or exactly at 20 is not
counted. -/
theorem threshold_counts :
    (∀ (engs : List RawEngineer) (assigns : List Assignment) (now : ℤ),
      (∀ e ∈ engs, e.maxCapacity ≠ some 0) →
        overloadedEngineers (engineersWithCapacity engs assigns now) =
          (engs.filter (fun e => decide (e.maxCapacity.getD 100 * (9 / 10 : ℚ) <
            (withCapacity assigns now e).currentCapacity))).length ∧
        underutilizedEngineers (engineersWithCapacity engs assigns now) =
          (engs.filter (fun e =>
            decide ((20 : ℚ) <
              (withCapacity assigns now e).availableCapacity))).length) ∧
    overloadedEngineers
      [{ id := 1, skills := [], maxCapacity := 100,
         currentCapacity := 90, availableCapacity := 10 }] = 0 ∧
    overloadedEngineers
      [{ id := 1, skills := [], maxCapacity := 100,
         currentCapacity := 91, availableCapacity := 9 }] = 1 ∧
    underutilizedEngineers
      [{ id := 2, skills := [], maxCapacity := 100,
         currentCapacity := 80, availableCapacity := 20 }] = 0 ∧
    underutilizedEngineers
      [{ id := 2, skills := [], maxCapacity := 100,
         currentCapacity := 79, availableCapacity := 21 }] = 1 := by
  refine ⟨?_, by norm_num [overloadedEngineers, jsOr, List.filter],
    by norm_num [overloadedEngineers, jsOr, List.filter],
    by norm_num [underutilizedEngineers, List.filter],
    by norm_num [underutilizedEngineers, List.filter]⟩
  intro engs assigns now h
  constructor
  · unfold overloadedEngineers engineersWithCapacity
    rw [length_filter_map]
    congr 1
    apply List.filter_congr
    intro e he
    have hproj : (withCapacity assigns now e).maxCapacity =
        e.maxCapacity.getD 100 := rfl
    have hmc : jsOr ((withCapacity assigns now e).maxCapacity) 100 =
        e.maxCapacity.getD 100 := by
      rw [hproj]
      unfold jsOr
      rcases hc : e.maxCapacity with _ | q
      · norm_num
      · have hne := h e he
        rw [hc] at hne
        have hq : q ≠ 0 := fun h0 => hne (by rw [h0])
        simp [hq]
    rw [hmc]
  · unfold underutilizedEngineers engineersWithCapacity
    rw [length_filter_map]

/-- C6, witnessed at a concrete input: a part-time engineer with
maxCapacity 50 and one 46-percent assignment is counted by the
overloaded rule, matching the claim's predicate. -/
theorem threshold_counts_witness :
    overloadedEngineers (engineersWithCapacity
        [{ id := 1, skills := some ["React"], maxCapacity := some 50 }]
        [{ id := 1, engineerId := 1, projectId := 1,
           allocationPercentage := some 46, startDate := 0, endDate := 10 }] 0) =
      ([{ id := 1, skills := some ["React"], maxCapacity := some 50 }].filter
        (fun e : RawEngineer => decide (e.maxCapacity.getD 100 * (9 / 10 : ℚ) <
          (withCapacity
            [{ id := 1, engineerId := 1, projectId := 1,
               allocationPercentage := some 46, startDate := 0, endDate := 10 }] 0
            e).currentCapacity))).length :=
  (threshold_counts.1 _ _ 0 (by decide)).1

/-- Helper: bump leaves every key in place, so a lookup is unchanged for
other keys and grows by one for the bumped key. -/
theorem lookupCount_bump (acc : List (String × Nat)) (t s : String) :
    lookupCount (bump acc t) s = lookupCount acc s + (if s = t then 1 else 0) := by
  unfold bump
  by_cases hmem : acc.any (fun q => q.1 == t)
  · rw [if_pos hmem]
    unfold lookupCount
    rw [List.find?_map]
    have hpred : ((fun q : String × Nat => q.1 == s) ∘
        (fun q : String × Nat => if q.1 == t then (q.1, q.2 + 1) else q)) =
        (fun q : String × Nat => q.1 == s) := by
      funext q
      by_cases hq : q.1 = t
      · simp [hq]
      · simp [hq]
    rw [hpred]
    cases hf : acc.find? (fun q => q.1 == s) with
    | none =>
      have hst : s ≠ t := by
        intro hst
        subst hst
        rcases List.any_eq_true.mp hmem with ⟨q, hq, hqt⟩
        exact (List.find?_eq_none.mp hf q hq) hqt
      simp [hst]
    | some p =>
      have hps : p.1 = s := by
        have := List.find?_some hf
        simpa using this
      by_cases hst : s = t
      · subst hst
        simp [hps]
      · have hPt : p.1 ≠ t := by
          rw [hps]
          exact hst
        simp [hPt, hst]
  · rw [if_neg hmem]
    unfold lookupCount
    rw [List.find?_append]
    cases hf : acc.find? (fun q => q.1 == s) with
    | none =>
      by_cases hst : s = t
      · subst hst
        simp [List.find?]
      · have hts : (t == s) = false := by
          simpa using fun h => hst h.symm
        simp [List.find?, hts, hst]
    | some p =>
      have hst : s ≠ t := by
        intro hst
        apply hmem
        apply List.any_eq_true.mpr
        refine ⟨p, List.mem_of_find?_eq_some hf, ?_⟩
        have hps := List.find?_some hf
        show (p.1 == t) = true
        rw [← hst]
        exact hps
      simp [hst]

/-- Helper: folding bump over a skill list adds each skill's occurrence
count to its counter. -/
theorem lookupCount_foldl_bump (s : String) :
    ∀ (ts : List String) (acc : List (String × Nat)),
      lookupCount (ts.foldl bump acc) s = lookupCount acc s + ts.count s := by
  intro ts
  induction ts with
  | nil => intro acc; simp
  | cons t ts ih =>
    intro acc
    simp only [List.foldl_cons]
    rw [ih, lookupCount_bump, List.count_cons]
    have hite : (if s = t then 1 else 0) = (if t == s then 1 else 0) := by
      by_cases h : s = t
      · simp [h]
      · have hts : (t == s) = false := by
          simpa using fun hh => h hh.symm
        simp [h, hts]
    rw [hite]
    omega

/-- Helper: the skillDemand fold sums the occurrence counts over all
projects. -/
theorem lookupCount_skillDemand_aux (s : String) :
    ∀ (projects : List Project) (acc : List (String × Nat)),
      lookupCount (projects.foldl
          (fun acc p => (p.requiredSkills.getD []).foldl bump acc) acc) s =
        lookupCount acc s +
          (projects.map (fun p => (p.requiredSkills.getD []).count s)).sum := by
  intro projects
  induction projects with
  | nil => intro acc; simp
  | cons p ps ih =>
    intro acc
    simp only [List.foldl_cons, List.map_cons, List.sum_cons]
    rw [ih, lookupCount_foldl_bump]
    omega

/-- C7 amended: skillDemand assigns to every skill the total number of
occurrences of that skill across all projects' required-skills lists;
when no project lists a skill twice, this is exactly the number of
projects requiring it; the ranking is sorted descending by count; and
within each count value the ranking preserves the object's first-seen
key order (stability). -/
theorem skillDemand_spec :
    (∀ (projects : List Project) (s : String),
      lookupCount (skillDemand projects) s =
        (projects.map (fun p => (p.requiredSkills.getD []).count s)).sum) ∧
    (∀ (projects : List Project) (s : String),
      (∀ p ∈ projects, (p.requiredSkills.getD []).Nodup) →
        lookupCount (skillDemand projects) s =
          (projects.filter
            (fun p => (p.requiredSkills.getD []).contains s)).length) ∧
    (∀ projects : List Project,
      (rankedSkills projects).Pairwise (fun p q => q.2 ≤ p.2)) ∧
    (∀ (projects : List Project) (c : Nat),
      (rankedSkills projects).filter (fun p => p.2 == c) =
        (skillDemand projects).filter (fun p => p.2 == c)) := by
  have hsum : ∀ (projects : List Project) (s : String),
      lookupCount (skillDemand projects) s =
        (projects.map (fun p => (p.requiredSkills.getD []).count s)).sum := by
    intro projects s
    unfold skillDemand
    rw [lookupCount_skillDemand_aux]
    simp [lookupCount]
  refine ⟨hsum, ?_, ?_, ?_⟩
  · intro projects s h
    rw [hsum]
    induction projects with
    | nil => simp
    | cons p ps ih =>
      have hp := h p (List.mem_cons_self p ps)
      have hps : ∀ q ∈ ps, (q.requiredSkills.getD []).Nodup :=
        fun q hq => h q (List.mem_cons_of_mem p hq)
      simp only [List.map_cons, List.sum_cons, List.filter_cons]
      rw [ih hps, List.count_eq_of_nodup hp]
      by_cases hmem : s ∈ p.requiredSkills.getD []
      · have hcon : (p.requiredSkills.getD []).contains s = true := by
          simpa [List.contains] using hmem
        simp [hmem, hcon]
        omega
      · have hcon : (p.requiredSkills.getD []).contains s = false := by
          simpa [List.contains] using hmem
        simp [hmem, hcon]
  · intro projects
    have hp := sortByKey_pairwise (fun p : String × Nat => -(p.2 : ℤ))
      (skillDemand projects)
    unfold rankedSkills
    refine hp.imp ?_
    intro a b hab
    omega
  · intro projects c
    have hconv : ∀ l : List (String × Nat),
        l.filter (fun p => decide (-(p.2 : ℤ) = -(c : ℤ))) =
          l.filter (fun p => p.2 == c) := by
      intro l
      apply List.filter_congr
      intro p _
      rw [Bool.beq_eq_decide_eq]
      apply decide_eq_decide.mpr
      constructor
      · intro hh
        have := neg_inj.mp hh
        exact_mod_cast this
      · intro hh
        rw [hh]
    have hst := sortByKey_filter (fun p : String × Nat => -(p.2 : ℤ)) (-(c : ℤ))
      (skillDemand projects)
    unfold rankedSkills
    rw [← hconv, ← hconv ((skillDemand projects))]
    exact hst

/-- C7 amended, witnessed at a concrete input: one project requiring
React gives React a demand of 1, the number of projects requiring it. -/
theorem skillDemand_spec_witness :
    lookupCount (skillDemand
        [{ id := 1, status := "active", requiredSkills := some ["React"] }])
      "React" =
      ([{ id := 1, status := "active", requiredSkills := some ["React"] }].filter
        (fun p : Project => (p.requiredSkills.getD []).contains "React")).length :=
  skillDemand_spec.2.1 _ "React" (by decide)

/-- C7 counterexample: a single project that lists React twice in its
required-skills list drives the React counter to 2, although only one
project requires React, refuting the number-of-projects reading. -/
theorem skillDemand_duplicate :
    lookupCount (skillDemand
      [{ id := 1, status := "active",
         requiredSkills := some ["React", "React"] }]) "React" = 2 ∧
    ([{ id := 1, status := "active",
        requiredSkills := some ["React", "React"] }].filter
      (fun p : Project => (p.requiredSkills.getD []).contains "React")).length = 1 ∧
    (2 : Nat) ≠ 1 := by
  refine ⟨by decide, by decide, by decide⟩

end Assignly
